import Mathlib

/-!
Verification of the code-block directive (rst2pdf/directives/code_block.py).

Shallow embedding conventions:
* Python strings are modelled as `List Char`; classification tags as `String`.
* `str.find` is `findSub` (returns `Option Nat` instead of `-1`).
* Fallible code returns `Except`.
* The span-extraction branch of `code_block_directive` (the `include` path,
  lines 143-232) is `extract`, split into one stage per anchor option.
* `DocutilsInterface.join` (lines 100-110) is `joinE`; calling `next` on an
  empty iterator inside a generator raises `StopIteration`, which CPython
  (PEP 479, Python >= 3.7) converts to `RuntimeError`; this is the
  `Except.error` case of `joinE`.
* The token-rendering loop (lines 263-312) is `renderContent`/`renderLoop`;
  emitted docutils nodes are the inductive `Frag` (a `nodes.Text` is
  `Frag.text`, a `nodes.inline(v, classes=[c])` is `Frag.run v c`, and the
  line-number inline `nodes.inline(fstr % n, classes=[cls])` is
  `Frag.linenum n cls`; the fixed-width numeral formatting itself carries no
  information beyond the number and is not re-modelled).
-/

/-- A classified token as the directive sees it: `(ttype_or_class, value)`.
For `join` the first component is the pygments token type; pygments token
types are interned singletons, so the source's identity test `ttype is
lasttype` (line 105) coincides with equality. -/
abbrev Tok := String × List Char

/-- Python `needle in hay` / `hay.find(needle)` restricted to success at
offset `i` or later: the least index `j >= i` at which `needle` is a prefix
of `hay.drop j`, if any. -/
def findSubFrom (needle : List Char) (i : Nat) : List Char → Option Nat
  | [] => if needle = [] then some i else none
  | c :: rest =>
    if needle.isPrefixOf (c :: rest) then some i
    else findSubFrom needle (i + 1) rest

/-- Python `hay.find(needle)` as an `Option` (`none` models `-1`). -/
def findSub (hay needle : List Char) : Option Nat :=
  findSubFrom needle 0 hay

/-- The backward walk of the `start-at` branch (lines 176-184):
`for char in content[after_index:0:-1]: if char in '\n\r': break;
after_index -= 1`.  The slice runs from index `i` down to index 1 (index 0
is excluded), the examined character at each step being
`content[after_index]`; the loop leaves `after_index` at the index of the
first line-break character found, or at 0.  The out-of-range case cannot
occur for an `after_index` produced by `find`. -/
def walkBack (content : List Char) : Nat → Nat
  | 0 => 0
  | i + 1 =>
    match content[i + 1]? with
    | some c => if c = '\n' ∨ c = '\r' then i + 1 else walkBack content i
    | none => walkBack content i

/-- The forward walk of the `start-after` branch (lines 203-206):
`for char in content[after_index:]: if char == '\n': break;
after_index += 1`, expressed on the dropped suffix. -/
def walkFwdAux : List Char → Nat
  | [] => 0
  | c :: rest => if c = '\n' then 0 else 1 + walkFwdAux rest

/-- Index at which the forward walk starting at `p` stops. -/
def walkFwd (content : List Char) (p : Nat) : Nat :=
  p + walkFwdAux (content.drop p)

/-- Line count of Python `s.splitlines()` (`len(s.splitlines())`), for the
line terminators that occur in text read by `codecs.open`: `\n`, `\r` and
`\r\n` (the exotic Unicode boundaries Python also splits on never occur in
the inputs considered here).  The `Bool` argument records whether we are
inside an unterminated final line. -/
def slCountAux : Bool → List Char → Nat
  | inLine, [] => if inLine then 1 else 0
  | _, '\r' :: '\n' :: rest => 1 + slCountAux false rest
  | _, '\n' :: rest => 1 + slCountAux false rest
  | _, '\r' :: rest => 1 + slCountAux false rest
  | _, _ :: rest => slCountAux true rest

/-- `len(s.splitlines())`. -/
def slCount (s : List Char) : Nat := slCountAux false s

/-- The four optional anchor options of the directive (lines 164, 190, 212,
223), each `options.get(key, None)`. -/
structure Anchors where
  startAt : Option (List Char)
  startAfter : Option (List Char)
  endAt : Option (List Char)
  endBefore : Option (List Char)
deriving DecidableEq

/-- The severe reporter error raised when an anchor is missing (e.g. lines
169-172): the message names the offending option and interpolates the
needle, modelled structurally. -/
structure AnchorErr where
  which : String
  needle : List Char
deriving DecidableEq

/-- State threaded through the anchor stages: the working `content` and the
current `line_offset` (initialised to 0 at line 153). -/
abbrev ExtractSt := List Char × Int

/-- The `start-at` stage (lines 164-188).  Python truthiness: the stage is
skipped when the option is absent or the empty string.  Note two properties
of the source faithfully reproduced here: the backward walk stops ON the
line-break character (so the kept suffix starts with it), and `line_offset`
is computed from the already-reassigned `content` (line 187 reassigns,
line 188 slices the new value). -/
def stStartAt (o : Option (List Char)) (st : ExtractSt) : Except AnchorErr ExtractSt :=
  match o with
  | none => .ok st
  | some a =>
    if a = [] then .ok st
    else
      match findSub st.1 a with
      | none => .error ⟨"start-at", a⟩
      | some i =>
        let ai := walkBack st.1 i
        let c2 := st.1.drop ai
        .ok (c2, (slCount (c2.take ai) : Int) - 1)

/-- The `start-after` stage (lines 190-209).  Here `line_offset` is computed
from the working text before reassignment (lines 208-209), and the forward
walk stops ON the `\n`. -/
def stStartAfter (o : Option (List Char)) (st : ExtractSt) : Except AnchorErr ExtractSt :=
  match o with
  | none => .ok st
  | some a =>
    if a = [] then .ok st
    else
      match findSub st.1 a with
      | none => .error ⟨"start-after", a⟩
      | some i =>
        let ai := walkFwd st.1 (i + a.length)
        .ok (st.1.drop ai, (slCount (st.1.take ai) : Int))

/-- The `end-at` stage (lines 212-221): keep up to and including the match. -/
def stEndAt (o : Option (List Char)) (st : ExtractSt) : Except AnchorErr ExtractSt :=
  match o with
  | none => .ok st
  | some b =>
    if b = [] then .ok st
    else
      match findSub st.1 b with
      | none => .error ⟨"end-at", b⟩
      | some i => .ok (st.1.take (i + b.length), st.2)

/-- The `end-before` stage (lines 223-232): keep strictly before the match. -/
def stEndBefore (o : Option (List Char)) (st : ExtractSt) : Except AnchorErr ExtractSt :=
  match o with
  | none => .ok st
  | some b =>
    if b = [] then .ok st
    else
      match findSub st.1 b with
      | none => .error ⟨"end-before", b⟩
      | some i => .ok (st.1.take i, st.2)

/-- Span extraction: the `include` branch of `code_block_directive`
(lines 152-232) after the file has been read and `rstrip`-ped (reading is
an external concern).  The `if content:` guard at line 154 skips every
anchor when the content is empty; otherwise the four stages run in the
source's fixed order. -/
def extract (content : List Char) (a : Anchors) : Except AnchorErr ExtractSt :=
  if content = [] then .ok (content, 0)
  else
    match stStartAt a.startAt (content, 0) with
    | .error e => .error e
    | .ok st1 =>
      match stStartAfter a.startAfter st1 with
      | .error e => .error e
      | .ok st2 =>
        match stEndAt a.endAt st2 with
        | .error e => .error e
        | .ok st3 => stEndBefore a.endBefore st3

/-- The accumulator loop of `DocutilsInterface.join` (lines 104-110), after
`next` has primed `(lasttype, lastval)`. -/
def joinGo (lasttype : String) (lastval : List Char) : List Tok → List Tok
  | [] => [(lasttype, lastval)]
  | (t, v) :: rest =>
    if t = lasttype then joinGo lasttype (lastval ++ v) rest
    else (lasttype, lastval) :: joinGo t v rest

/-- `DocutilsInterface.join` (lines 100-110) as a whole.  On an empty
stream the initial `next(tokens)` (line 103) raises `StopIteration` inside
the generator, which Python >= 3.7 (PEP 479) converts to `RuntimeError`:
the `Except.error` case. -/
def joinE : List Tok → Except Unit (List Tok)
  | [] => .error ()
  | (t, v) :: rest => .ok (joinGo t v rest)

/-- Concatenation of all token values of a stream, in order. -/
def concatVals : List Tok → List Char
  | [] => []
  | (_, v) :: rest => v ++ concatVals rest

/-- Adjacent tokens always carry distinct tags (the shape `join` guarantees
of its output). -/
def noAdjDup : List Tok → Prop
  | [] => True
  | [_] => True
  | a :: b :: r => a.1 ≠ b.1 ∧ noAdjDup (b :: r)

/-- The tokenizer backend as the directive sees it.  `present` records
whether the guarded import at lines 37-42 succeeded; when it failed the
names `pygments`, `get_lexer_by_name` and the ttype-class map are simply
unbound, so referencing them raises `NameError`.  `knownLexer` tells
whether `get_lexer_by_name` succeeds for a given (lower-cased) name — its
failure, `pygments.util.ClassNotFound`, is a `ValueError` subclass.
`runLexer` is `pygments.lex` with the resolved lexer; `ttypeClass` is
`_get_ttype_class`. -/
structure TokBackend where
  present : Bool
  knownLexer : String → Bool
  runLexer : String → List Char → List Tok
  ttypeClass : String → String

/-- Python exceptions distinguished by this model. -/
inductive PyExc where
  | nameError
  | valueError
  | ioError
  | runtimeError
deriving DecidableEq

/-- `get_lexer_by_name` as called from this file: an unbound name when
the guarded import failed (`NameError`), `ClassNotFound`/`ValueError` when the lexer
does not exist (the `custom_args` are opaque to this model). -/
def getLexerByName (B : TokBackend) (n : String) : Except PyExc String :=
  if B.present then
    if B.knownLexer n then .ok n else .error .valueError
  else .error .nameError

/-- `DocutilsInterface.lex` (lines 87-98): resolve the lexer (falling back
to 'text' on ValueError, line 94-97) and run `pygments.lex`.  Any other
exception — in particular the `NameError` from an unbound
`get_lexer_by_name` — escapes the `except ValueError` handler. -/
def lexFn (B : TokBackend) (code : List Char) (language : Option String) :
    Except PyExc (List Tok) :=
  let attempt :=
    match language with
    | some l =>
      if l ≠ "" ∧ l.toLower ≠ "none" then getLexerByName B l.toLower
      else getLexerByName B "text"
    | none => getLexerByName B "text"
  match attempt with
  | .ok lx => .ok (B.runLexer lx code)
  | .error .valueError =>
    match getLexerByName B "text" with
    | .ok lx => .ok (B.runLexer lx code)
    | .error e => .error e
  | .error e => .error e

/-- `DocutilsInterface.__iter__` (lines 112-123): only `IOError` from `lex`
is caught and turned into the single unstyled fallback token; every other
exception propagates to the caller.  The merged stream is mapped through
`_get_ttype_class`. -/
def classifyFn (B : TokBackend) (code : List Char) (language : Option String) :
    Except PyExc (List Tok) :=
  match lexFn B code language with
  | .error .ioError => .ok [("", code)]
  | .error e => .error e
  | .ok toks =>
    match joinE toks with
    | .error _ => .error .runtimeError
    | .ok merged => .ok (merged.map (fun tv => (B.ttypeClass tv.1, tv.2)))

/-- A backend in the state left by a failed `import pygments` (lines 37-42):
nothing is bound. -/
def noBackend : TokBackend :=
  { present := false
    knownLexer := fun _ => false
    runLexer := fun _ _ => []
    ttypeClass := fun t => t }

/-- Output fragments of the rendering loop: `nodes.Text` (line 308),
`nodes.inline(v, v, classes=[c])` runs (lines 286, 301, 312), and the
line-number inlines `nodes.inline(fstr % n, classes=[cls])` (lines
271-273, 298-300), recorded as number plus class. -/
inductive Frag where
  | text (value : List Char)
  | run (value : List Char) (cls : String)
  | linenum (n : Int) (cls : String)
deriving DecidableEq

/-- `unstyled_tokens` (line 53). -/
def unstyledTokens : List String := [""]

/-- Python `value.split("\n")`: all pieces, empty pieces kept. -/
def splitNl : List Char → List (List Char)
  | [] => [[]]
  | c :: cs =>
    let r := splitNl cs
    if c = '\n' then [] :: r
    else
      match r with
      | [] => [[c]]
      | h :: t => (c :: h) :: t

/-- Python `range(s, s + n)` over `Int`, as a list. -/
def intRange (s : Int) (n : Nat) : List Int :=
  (List.range n).map (fun k => s + (k : Int))

/-- One iteration of the numbered-chunk loop (lines 290-301): for a piece
`chunk` that begins line `ln`, emit the line-number inline and the piece —
but only when `ln <= total_lines` (line 291). -/
def emitChunk (hl : List Int) (total : Int) (chunk : List Char) (ln : Int) : List Frag :=
  if ln ≤ total then
    let dim := hl ≠ [] ∧ ln ∉ hl
    [Frag.linenum ln (if dim then "pygments-diml" else "linenumber"),
     Frag.run chunk (if dim then "pygments-diml" else "")]
  else []

/-- The whole chunk loop over the zipped `(piece, line-number)` pairs. -/
def emitChunks (hl : List Int) (total : Int) : List (List Char × Int) → List Frag
  | [] => []
  | p :: r => emitChunk hl total p.1 p.2 ++ emitChunks hl total r

/-- The token loop of `code_block_directive` (lines 276-312), threading the
running `lineno`.  Per token: dim the class when highlighting is active and
the current line is not highlighted (lines 277-278); tokens containing a
line break are split when line numbers are on (lines 279-302) — the first
piece is emitted with class `'pygments-diml'` whenever the (possibly
dimmed) class is nonempty (lines 283-286), the later pieces go through
`emitChunk`, and `lineno` advances by the number of breaks (line 302);
otherwise unstyled tokens become plain text and styled tokens a
`pygments-`-classed inline, each advancing `lineno` by the value's break
count (lines 304-312). -/
def renderLoop (hl : List Int) (withln : Bool) (total : Int) :
    List Tok → Int → List Frag × Int
  | [], lineno => ([], lineno)
  | (cls0, value) :: rest, lineno =>
    let cls := if hl ≠ [] ∧ lineno ∉ hl then "diml" else cls0
    if withln ∧ '\n' ∈ value then
      let values := splitNl value
      let c := if cls ≠ "" then "pygments-diml" else ""
      let pairs := (values.zip (intRange lineno values.length)).drop 1
      let next := renderLoop hl withln total rest (lineno + (values.length : Int) - 1)
      (Frag.run (values.headD []) c :: (emitChunks hl total pairs ++ next.1), next.2)
    else if cls ∈ unstyledTokens then
      let next :=
        renderLoop hl withln total rest
          (if '\n' ∈ value then lineno + (value.count '\n' : Int) else lineno)
      (Frag.text value :: next.1, next.2)
    else
      let next :=
        renderLoop hl withln total rest
          (if '\n' ∈ value then lineno + (value.count '\n' : Int) else lineno)
      (Frag.run value ("pygments-" ++ cls) :: next.1, next.2)

/-- `total_lines` (line 264): `content.count('\n') + 1 + line_offset`. -/
def totalLines (content : List Char) (off : Int) : Int :=
  (content.count '\n' : Int) + 1 + off

/-- Rendering of a content string from line 263 on: the initial
line-number inline (lines 265-273, emitted whenever `linenos` is set, with
the dimmed class when highlighting is active and the first line is not
highlighted) followed by the token loop, starting at
`lineno = 1 + line_offset` (line 263).  Returns the fragments and the
final `lineno`. -/
def renderContent (content : List Char) (off : Int) (tokens : List Tok)
    (hl : List Int) (withln : Bool) : List Frag × Int :=
  let lineno : Int := 1 + off
  let total := totalLines content off
  let head :=
    if withln then
      [Frag.linenum lineno (if hl ≠ [] ∧ lineno ∉ hl then "pygments-diml" else "linenumber")]
    else []
  let next := renderLoop hl withln total tokens lineno
  (head ++ next.1, next.2)

/-- The `line_offset` value actually used by the rendering stage.  In the
`include` branch `line_offset` is the anchor-derived offset (lines
152-232); in the inline branch it is the raw `linenos_offset` option value
(line 235, `None` when absent).  Lines 252-253 then reset it to 0 whenever
the `linenos_offset` option is absent — only presence is tested, so in the
`include` branch the option's own value is never read. -/
def lineOffsetUsed (branchOffset : Int) : Option Int → Int
  | none => 0
  | some _ => branchOffset

/-! ## Helper lemmas -/

theorem splitNl_ne_nil (v : List Char) : splitNl v ≠ [] := by
  cases v with
  | nil => simp [splitNl]
  | cons c cs =>
    simp only [splitNl]
    split
    · simp
    · cases splitNl cs <;> simp

theorem splitNl_length (v : List Char) : (splitNl v).length = v.count '\n' + 1 := by
  induction v with
  | nil => rfl
  | cons c cs ih =>
    by_cases h : c = '\n'
    · subst h
      simp [splitNl, List.count_cons, ih]
    · rcases hr : splitNl cs with _ | ⟨hd, tl⟩
      · exact absurd hr (splitNl_ne_nil cs)
      · rw [hr] at ih
        simp only [splitNl, if_neg h, hr]
        simp only [List.length_cons] at ih ⊢
        have hcount : (c :: cs).count '\n' = cs.count '\n' := by
          simp [List.count_cons, Ne.symm h]
        omega

theorem count_nl_eq_zero {v : List Char} (h : '\n' ∉ v) : v.count '\n' = 0 :=
  List.count_eq_zero.mpr h

theorem joinGo_head (l : List Tok) : ∀ (t : String) (v : List Char),
    ∃ w r, joinGo t v l = (t, w) :: r := by
  induction l with
  | nil => intro t v; exact ⟨v, [], rfl⟩
  | cons p rest ih =>
    intro t v
    obtain ⟨t2, v2⟩ := p
    by_cases h : t2 = t
    · simp only [joinGo, if_pos h]
      exact ih t (v ++ v2)
    · simp only [joinGo, if_neg h]
      exact ⟨v, joinGo t2 v2 rest, rfl⟩

theorem joinGo_noAdj (l : List Tok) : ∀ (t : String) (v : List Char),
    noAdjDup (joinGo t v l) := by
  induction l with
  | nil => intro t v; trivial
  | cons p rest ih =>
    intro t v
    obtain ⟨t2, v2⟩ := p
    by_cases h : t2 = t
    · simp only [joinGo, if_pos h]
      exact ih t (v ++ v2)
    · simp only [joinGo, if_neg h]
      obtain ⟨w, r, hw⟩ := joinGo_head rest t2 v2
      rw [hw]
      exact ⟨by simpa using Ne.symm h, hw ▸ ih t2 v2⟩

theorem joinGo_of_noAdj (r : List Tok) : ∀ (t : String) (v : List Char),
    noAdjDup ((t, v) :: r) → joinGo t v r = (t, v) :: r := by
  induction r with
  | nil => intro t v _; rfl
  | cons p r' ih =>
    intro t v h
    obtain ⟨t2, v2⟩ := p
    have hne : t2 ≠ t := fun e => h.1 (by simp [e])
    simp only [joinGo, if_neg hne]
    rw [ih t2 v2 h.2]

theorem joinGo_concat (l : List Tok) : ∀ (t : String) (v : List Char),
    concatVals (joinGo t v l) = v ++ concatVals l := by
  induction l with
  | nil => intro t v; simp [joinGo, concatVals]
  | cons p rest ih =>
    intro t v
    obtain ⟨t2, v2⟩ := p
    by_cases h : t2 = t
    · simp only [joinGo, if_pos h, ih, concatVals]
      simp [List.append_assoc]
    · simp only [joinGo, if_neg h, concatVals, ih]

theorem emitChunk_linenum_le (hl : List Int) (total : Int) (chunk : List Char)
    (ln n : Int) (c : String) :
    Frag.linenum n c ∈ emitChunk hl total chunk ln → n ≤ total := by
  unfold emitChunk
  split
  · rename_i hle
    intro hmem
    rcases List.mem_cons.mp hmem with h | h
    · cases h; exact hle
    · rcases List.mem_cons.mp h with h | h
      · simp at h
      · simp at h
  · intro h; cases h

theorem emitChunks_linenum_le (hl : List Int) (total : Int) (n : Int) (c : String) :
    ∀ ps, Frag.linenum n c ∈ emitChunks hl total ps → n ≤ total := by
  intro ps
  induction ps with
  | nil => intro h; cases h
  | cons p r ih =>
    intro h
    rcases List.mem_append.mp h with h | h
    · exact emitChunk_linenum_le hl total p.1 p.2 n c h
    · exact ih h

theorem renderLoop_linenum_le (hl : List Int) (withln : Bool) (total : Int) :
    ∀ (tokens : List Tok) (s n : Int) (c : String),
      Frag.linenum n c ∈ (renderLoop hl withln total tokens s).1 → n ≤ total := by
  intro tokens
  induction tokens with
  | nil => intro s n c h; cases h
  | cons tv rest ih =>
    intro s n c h
    obtain ⟨cls0, value⟩ := tv
    simp only [renderLoop] at h
    split at h
    · rcases List.mem_cons.mp h with h | h
      · simp at h
      · rcases List.mem_append.mp h with h | h
        · exact emitChunks_linenum_le hl total n c _ h
        · exact ih _ n c h
    · split at h <;> split at h <;>
        rcases List.mem_cons.mp h with h | h <;>
        first
          | exact ih _ n c h
          | simp at h

/-! ## Claim theorems -/

/-- C2: for every token stream whose values together contain k line-break
characters, the rendering loop run with starting line s finishes with its
running line counter equal to s + k, in every branch combination (split,
unstyled, styled). -/
theorem renderLoop_line_count (hl : List Int) (withln : Bool) (total : Int) :
    ∀ (tokens : List Tok) (s : Int),
      (renderLoop hl withln total tokens s).2 =
        s + (((tokens.map (fun t => t.2.count '\n')).sum : Nat) : Int) := by
  intro tokens
  induction tokens with
  | nil => intro s; simp [renderLoop]
  | cons tv rest ih =>
    intro s
    obtain ⟨cls0, value⟩ := tv
    simp only [renderLoop]
    have hsum : (((cls0, value) :: rest).map (fun t => t.2.count '\n')).sum =
        value.count '\n' + ((rest.map (fun t => t.2.count '\n')).sum) := by
      simp
    split
    · rename_i hcond
      have hlen := splitNl_length value
      simp only [ih, hsum]
      push_cast
      omega
    · split <;> split <;>
      · by_cases hmem : '\n' ∈ value
        · simp only [if_pos hmem, ih, hsum]
          push_cast
          omega
        · have h0 : value.count '\n' = 0 := count_nl_eq_zero hmem
          simp only [if_neg hmem, ih, hsum, h0]
          push_cast
          omega

/-- C5 counterexample: merge (DocutilsInterface.join) applied to the empty
token stream does not yield the empty sequence — the priming next() raises. -/
theorem join_empty_not_ok : ¬ (joinE ([] : List Tok) = .ok []) :=
  fun h => Except.noConfusion h

/-- C5 (amended): merge applied to an empty token stream fails (the priming
next() on the empty iterator raises StopIteration, which PEP 479 turns into
RuntimeError) instead of yielding the empty sequence; applied to a
single-token stream it yields exactly that one token unchanged. -/
theorem join_empty_raises_single_passthrough :
    joinE ([] : List Tok) = .error () ∧
      ∀ (t : String) (v : List Char), joinE [(t, v)] = .ok [(t, v)] :=
  ⟨rfl, fun _ _ => rfl⟩

/-- C6: merge is idempotent — re-merging the result of a merge (with the
failure of the empty stream propagating through bind) changes nothing. -/
theorem join_idempotent : ∀ ts : List Tok, (joinE ts).bind joinE = joinE ts := by
  intro ts
  cases ts with
  | nil => rfl
  | cons p rest =>
    obtain ⟨t, v⟩ := p
    show joinE (joinGo t v rest) = Except.ok (joinGo t v rest)
    obtain ⟨w, r, hw⟩ := joinGo_head rest t v
    have hnd := joinGo_noAdj rest t v
    rw [hw] at hnd ⊢
    show Except.ok (joinGo t w r) = Except.ok ((t, w) :: r)
    rw [joinGo_of_noAdj r t w hnd]

/-- C7: merging never drops, adds or reorders characters — the
concatenation of the merged values equals the concatenation of the input
values. -/
theorem join_concat_preserved :
    ∀ (ts out : List Tok), joinE ts = .ok out → concatVals out = concatVals ts := by
  intro ts out h
  cases ts with
  | nil => exact absurd h (fun h => Except.noConfusion h)
  | cons p rest =>
    obtain ⟨t, v⟩ := p
    have hout : out = joinGo t v rest := by
      have h' := h
      simp only [joinE, Except.ok.injEq] at h'
      exact h'.symm
    rw [hout, joinGo_concat]
    rfl

/-- C7 witness: a concrete merge of two same-tag tokens preserves the
concatenated value. -/
theorem join_concat_preserved_witness :
    concatVals [(("a" : String), ['x', 'y'])] =
      concatVals [(("a" : String), ['x']), ("a", ['y'])] :=
  join_concat_preserved [("a", ['x']), ("a", ['y'])] [("a", ['x', 'y'])] rfl

/-- C9: under line numbering, no line-number inline (nor its accompanying
piece — both are emitted under the single guard of emitChunk) is ever
produced for a line number greater than total_lines; in particular the
phantom empty final piece created by a trailing newline yields no orphan
trailing marker. -/
theorem render_no_orphan_linenum :
    (∀ (content : List Char) (off : Int) (tokens : List Tok) (hl : List Int)
        (withln : Bool) (n : Int) (c : String),
        Frag.linenum n c ∈ (renderContent content off tokens hl withln).1 →
          n ≤ totalLines content off) ∧
      ∀ (hl : List Int) (total : Int) (chunk : List Char) (ln : Int),
        total < ln → emitChunk hl total chunk ln = [] := by
  constructor
  · intro content off tokens hl withln n c h
    simp only [renderContent] at h
    rcases List.mem_append.mp h with h | h
    · split at h
      · rcases List.mem_cons.mp h with h | h
        · cases h
          have : (0 : Int) ≤ (content.count '\n' : Int) := Int.natCast_nonneg _
          simp only [totalLines]
          omega
        · cases h
      · cases h
    · exact renderLoop_linenum_le hl withln (totalLines content off) tokens _ n c h
  · intro hl total chunk ln hlt
    unfold emitChunk
    rw [if_neg (by omega)]

/-- C9 witness: a one-line numbered render emits the marker for line 1,
which is within total_lines; and a chunk one past total_lines is
suppressed entirely. -/
theorem render_no_orphan_linenum_witness :
    (Frag.linenum 1 "linenumber" ∈ (renderContent ['a'] 0 [("", ['a'])] [] true).1) ∧
      (1 : Int) ≤ totalLines ['a'] 0 ∧ emitChunk [] 1 [] 2 = [] :=
  ⟨by decide,
   render_no_orphan_linenum.1 ['a'] 0 [("", ['a'])] [] true 1 "linenumber" (by decide),
   render_no_orphan_linenum.2 [] 1 [] 2 (by decide)⟩

/-- C10: when the linenos_offset option is absent, the offset actually used
by the rendering stage is reset to 0 — whatever offset the include-branch
anchor extraction produced — so with line numbers on, the first emitted
fragment is the marker for line 1. -/
theorem linenos_offset_absent_resets :
    ∀ (branchOff : Int) (content : List Char) (tokens : List Tok) (hl : List Int),
      lineOffsetUsed branchOff none = 0 ∧
        ∃ c, ((renderContent content (lineOffsetUsed branchOff none) tokens hl true).1).head? =
          some (Frag.linenum 1 c) := by
  intro branchOff content tokens hl
  refine ⟨rfl, ⟨if hl ≠ [] ∧ (1 : Int) ∉ hl then "pygments-diml" else "linenumber", ?_⟩⟩
  simp [lineOffsetUsed, renderContent]

/-- C4 counterexample: the claim as stated fails on empty content.  The
`if content:` guard at line 154 skips every anchor when the content is
empty (an empty or whitespace-only included file after rstrip, or the
empty string substituted after a read error at lines 150-152), so a
supplied anchor — here start-after = "zz", certainly absent from the empty
working text — raises nothing and extraction silently returns the text. -/
theorem extract_empty_content_silent :
    findSub [] ['z', 'z'] = none ∧
      extract [] ⟨none, some ['z', 'z'], none, none⟩ = .ok ([], 0) :=
  ⟨rfl, rfl⟩

/-- C4 (amended): whenever the content is nonempty and one of the four
anchor options is supplied (non-empty, as Python truthiness requires) but
does not occur in the working text at its point of application — the
original content for start-at, the text already narrowed by the earlier
stages for the later anchors — extraction fails with the severe error
naming exactly that option and needle; only for empty content does the
`if content:` guard at line 154 skip the anchors and silently return the
(empty) text. -/
theorem extract_anchor_not_found :
    ∀ (content : List Char) (a : Anchors), content ≠ [] →
      ((∀ s, a.startAt = some s → s ≠ [] → findSub content s = none →
          extract content a = .error ⟨"start-at", s⟩) ∧
        (∀ s st1, stStartAt a.startAt (content, 0) = .ok st1 →
          a.startAfter = some s → s ≠ [] → findSub st1.1 s = none →
          extract content a = .error ⟨"start-after", s⟩) ∧
        (∀ s st1 st2, stStartAt a.startAt (content, 0) = .ok st1 →
          stStartAfter a.startAfter st1 = .ok st2 →
          a.endAt = some s → s ≠ [] → findSub st2.1 s = none →
          extract content a = .error ⟨"end-at", s⟩) ∧
        (∀ s st1 st2 st3, stStartAt a.startAt (content, 0) = .ok st1 →
          stStartAfter a.startAfter st1 = .ok st2 →
          stEndAt a.endAt st2 = .ok st3 →
          a.endBefore = some s → s ≠ [] → findSub st3.1 s = none →
          extract content a = .error ⟨"end-before", s⟩)) := by
  intro content a hc
  refine ⟨?_, ?_, ?_, ?_⟩
  · intro s hs hne hf
    unfold extract
    rw [if_neg hc, hs]
    simp [stStartAt, hne, hf]
  · intro s st1 h1 hs hne hf
    unfold extract
    rw [if_neg hc, h1, hs]
    simp [stStartAfter, hne, hf]
  · intro s st1 st2 h1 h2 hs hne hf
    unfold extract
    simp only [if_neg hc, h1, h2, hs]
    simp [stEndAt, hne, hf]
  · intro s st1 st2 st3 h1 h2 h3 hs hne hf
    unfold extract
    simp only [if_neg hc, h1, h2, h3, hs]
    simp [stEndBefore, hne, hf]

/-- C4 witness: start-after = "zz" absent from content "abc" makes
extraction fail with the error naming start-after. -/
theorem extract_anchor_not_found_witness :
    (['a', 'b', 'c'] : List Char) ≠ [] ∧
      extract ['a', 'b', 'c'] ⟨none, some ['z', 'z'], none, none⟩ =
        .error ⟨"start-after", ['z', 'z']⟩ :=
  ⟨by decide,
   (extract_anchor_not_found ['a', 'b', 'c'] ⟨none, some ['z', 'z'], none, none⟩
        (by decide)).2.1
     ['z', 'z'] (['a', 'b', 'c'], 0) rfl rfl (by decide) (by decide)⟩

/-- C1: evaluation of extraction at start-at = "def foo", end-at = "pass"
over "a\nb\nc\ndef foo():\n    pass".  The claim expects the span to begin
at the first character of the anchor's line ("def foo():...") with
lineOffset 3 (three lines strictly before it); the code instead keeps the
newline preceding the anchor's line at the head of the span (the backward
walk of lines 176-184 stops ON the line break) and computes line_offset
from the already-reassigned content (lines 187-188), yielding 1. -/
theorem extract_start_at_eval :
    extract "a\nb\nc\ndef foo():\n    pass".toList
        ⟨some "def foo".toList, none, some "pass".toList, none⟩ =
      .ok ("\ndef foo():\n    pass".toList, 1) := by
  rfl

/-- C3: evaluation of token classification with no tokenizer backend
present at all (failed import, lines 37-42).  The claim (and the file's own
header, lines 19-20) expects the failsafe single unstyled token without
raising; instead the unbound name get_lexer_by_name raises NameError,
which neither the except ValueError at line 94 nor the except IOError at
line 116 catches, so the exception propagates to the caller. -/
theorem classify_no_backend_raises :
    ∀ (B : TokBackend) (code : List Char) (language : Option String),
      B.present = false →
        classifyFn B code language = .error .nameError ∧
          classifyFn B code language ≠ .ok [("", code)] := by
  intro B code language hB
  have hlex : lexFn B code language = .error .nameError := by
    unfold lexFn getLexerByName
    cases language with
    | none => simp [hB]
    | some l => simp [hB]
  have h1 : classifyFn B code language = .error .nameError := by
    unfold classifyFn
    rw [hlex]
  exact ⟨h1, by rw [h1]; exact fun h => Except.noConfusion h⟩

/-- C3 witness: the concrete no-backend environment with code "x" indeed
propagates NameError instead of producing the failsafe token. -/
theorem classify_no_backend_raises_witness :
    classifyFn noBackend ['x'] none = .error .nameError ∧
      classifyFn noBackend ['x'] none ≠ .ok [("", ['x'])] :=
  classify_no_backend_raises noBackend ['x'] none rfl

/-- C8: evaluation of the numbered, highlight-annotated render of the
3-line span "l1\nx\ny" with highlighted line set {2} and token stream
[("", "l1\n"), ("s", "x\ny")].  The styled token ("s", "x\ny") starts on
highlighted line 2, yet its first piece "x" is emitted with the dimmed
class "pygments-diml" (emphasized = false): lines 283-286 dim the first
piece of every split token whose class is nonempty, instead of testing for
the dim marker set at lines 277-278.  The claim expects every fragment of
line 2 to be emphasized. -/
theorem render_hl_first_piece_eval :
    renderContent "l1\nx\ny".toList 0
        [("", "l1\n".toList), ("s", "x\ny".toList)] [2] true =
      ([Frag.linenum 1 "pygments-diml",
        Frag.run "l1".toList "pygments-diml",
        Frag.linenum 2 "linenumber",
        Frag.run [] "",
        Frag.run "x".toList "pygments-diml",
        Frag.linenum 3 "pygments-diml",
        Frag.run "y".toList "pygments-diml"], 3) := by
  rfl
